import Mathlib

/-!
Verification development for the website-scraping core of the
search-trends-dashboard repository.

The embedding models Python text as `List Char`. Python string helpers used by
the code (`str.lower`, `str.strip`, `str.split`, `urllib.parse.urlsplit`,
`urllib.parse.urljoin`) are translated here for the ASCII inputs this code
handles; Python `lower`/`strip` are per-character on ASCII, which these
definitions reflect. Fallible Python code is embedded with `Except`/`Option`,
and the dynamic typing slip in `get_subpages` (returning a Python `list` on a
non-success status where the success path returns a `set`) is modelled by a
`PyVal` sum so that the resulting `AttributeError` is visible.
-/

namespace Scraper

/-- Python `str.lower` on ASCII text: per-character lowering. -/
def pyLower (l : List Char) : List Char := l.map Char.toLower

/-- Python `str.strip(c)` for a single strip character: remove leading and
trailing occurrences of `c`. -/
def pyStrip (c : Char) (l : List Char) : List Char :=
  ((l.dropWhile (· == c)).reverse.dropWhile (· == c)).reverse

/-- Whitespace recognised by Python `str.strip()` on ASCII text. -/
def isSpaceChar (c : Char) : Bool :=
  c == ' ' || c == '\t' || c == '\n' || c == '\x0d' || c == '\x0b' || c == '\x0c'

/-- Python `str.strip()` on ASCII text: drop leading and trailing whitespace. -/
def pyTrim (l : List Char) : List Char :=
  ((l.dropWhile isSpaceChar).reverse.dropWhile isSpaceChar).reverse

/-- Split a character list at the first occurrence of `c`: the part before it,
and (when `c` occurs) the part after it.  Models Python `s.split(c, 1)`. -/
def splitAtFirst (c : Char) (l : List Char) : List Char × Option (List Char) :=
  match l.dropWhile (· != c) with
  | [] => (l.takeWhile (· != c), none)
  | _ :: r => (l.takeWhile (· != c), some r)

/-- Python `str.split(sep)` for a one-character separator: the list of chunks
between occurrences of `c`; the empty string splits to one empty chunk. -/
def splitOnChar (c : Char) : List Char → List (List Char)
  | [] => [[]]
  | a :: r =>
    let rest := splitOnChar c r
    if a == c then [] :: rest
    else
      match rest with
      | h :: t => (a :: h) :: t
      | [] => [[a]]

/-- Join chunks with a one-character separator, Python `c.join(parts)`. -/
def joinOnChar (c : Char) (parts : List (List Char)) : List Char :=
  List.intercalate [c] parts

/-- Characters allowed in a URL scheme after the first, as in
`urllib.parse.scheme_chars` (ASCII letters, digits, and plus, dash, dot). -/
def schemeChar (c : Char) : Bool :=
  c.isAlpha || c.isDigit || c == '+' || c == '-' || c == '.'

/-- Result of `urllib.parse.urlsplit`: scheme, network location, path, query
and fragment components.  Parameters (`;`) are not split off, matching inputs
without parameter sections. -/
structure SplitUrl where
  scheme : List Char
  netloc : List Char
  path : List Char
  query : List Char
  fragment : List Char
deriving DecidableEq, Repr

/-- Scheme step of `urllib.parse.urlsplit`: if the text up to the first colon
is a nonempty valid scheme (leading ASCII letter, then scheme characters), the
lowercased scheme and the remainder; otherwise the default scheme and the
whole input. -/
def parseScheme (dflt : List Char) (u : List Char) : List Char × List Char :=
  match splitAtFirst ':' u with
  | (pre, some rest) =>
    if pre ≠ [] ∧ (match pre.head? with | some c => c.isAlpha | none => false) = true
        ∧ pre.all schemeChar = true
    then (pyLower pre, rest)
    else (dflt, u)
  | (_, none) => (dflt, u)

/-- Netloc step of `urllib.parse.urlsplit`: when the remainder begins with two
slashes, the network location runs until the next slash, question mark or hash
character. -/
def parseNetloc (u : List Char) : List Char × List Char :=
  if u.take 2 = ['/', '/'] then
    ((u.drop 2).takeWhile (fun c => !(c == '/' || c == '?' || c == '#')),
     (u.drop 2).dropWhile (fun c => !(c == '/' || c == '?' || c == '#')))
  else ([], u)

/-- Model of `urllib.parse.urlsplit(url, scheme=dflt)` for ASCII URLs: scheme,
then netloc, then fragment split at the first hash, then query split at the
first question mark. -/
def urlsplitD (dflt : List Char) (u : List Char) : SplitUrl :=
  let (scheme, rest1) := parseScheme dflt u
  let (netloc, rest2) := parseNetloc rest1
  let (rest3, frag) := splitAtFirst '#' rest2
  let (path, q) := splitAtFirst '?' rest3
  ⟨scheme, netloc, path, q.getD [], frag.getD []⟩

/-- Model of `urllib.parse.urlsplit(url)` with the empty default scheme, as
used by `is_internal_url`. -/
def urlsplit (u : List Char) : SplitUrl := urlsplitD [] u

/-- Model of `urllib.parse.urlunsplit`: reassemble a split URL. -/
def urlunsplit (x : SplitUrl) : List Char :=
  let u0 := x.path
  let u1 :=
    if x.netloc ≠ [] ∨ (u0 ≠ [] ∧ u0.take 2 = ['/', '/']) then
      '/' :: '/' :: x.netloc ++
        (if u0 ≠ [] ∧ u0.head? ≠ some '/' then '/' :: u0 else u0)
    else u0
  let u2 := if x.scheme ≠ [] then x.scheme ++ ':' :: u1 else u1
  let u3 := if x.query ≠ [] then u2 ++ '?' :: x.query else u2
  if x.fragment ≠ [] then u3 ++ '#' :: x.fragment else u3

/-- Schemes treated as allowing relative resolution, `urllib.parse.uses_relative`. -/
def usesRelative : List (List Char) :=
  (["", "ftp", "http", "gopher", "nntp", "imap", "wais", "file", "https",
    "shttp", "mms", "prospero", "rtsp", "rtspu", "sftp", "svn", "svn+ssh",
    "ws", "wss"].map String.toList)

/-- Schemes with a network location component, `urllib.parse.uses_netloc`. -/
def usesNetloc : List (List Char) :=
  (["", "ftp", "http", "gopher", "nntp", "telnet", "imap", "wais", "file",
    "mms", "https", "shttp", "snews", "prospero", "rtsp", "rtspu", "rsync",
    "svn", "svn+ssh", "sftp", "nfs", "git", "git+ssh", "ws", "wss",
    "itms-services"].map String.toList)

/-- Middle-slice filter of `urljoin`: Python assigns
`segments[1:-1] = filter(None, segments[1:-1])`, dropping empty segments that
are neither first nor last. -/
def applyMidFilter (l : List (List Char)) : List (List Char) :=
  match l with
  | [] => []
  | a :: rest =>
    match rest.getLast? with
    | none => [a]
    | some z => a :: ((rest.dropLast.filter (fun x => !x.isEmpty)) ++ [z])

/-- Dot-segment resolution loop of `urljoin`: a `..` segment pops the last
resolved segment (ignoring underflow), a `.` segment is skipped, anything else
is appended. -/
def resolveSegments (segments : List (List Char)) : List (List Char) :=
  segments.foldl
    (fun acc seg =>
      if seg = ['.', '.'] then acc.dropLast
      else if seg = ['.'] then acc
      else acc ++ [seg]) []

/-- Path-merging tail of `urljoin` once the candidate has no authority of its
own: empty candidate paths inherit the base path (and query when the candidate
query is empty); otherwise the candidate path is merged against the base path
with dot-segment resolution and reassembled. -/
def urljoinPath (u : SplitUrl) (b : SplitUrl) (netloc : List Char) : List Char :=
  if u.path = [] then
    urlunsplit ⟨u.scheme, netloc, b.path,
      (if u.query = [] then b.query else u.query), u.fragment⟩
  else
    let baseParts0 := splitOnChar '/' b.path
    let baseParts := if baseParts0.getLast? ≠ some [] then baseParts0.dropLast else baseParts0
    let segments :=
      if u.path.head? = some '/' then splitOnChar '/' u.path
      else applyMidFilter (baseParts ++ splitOnChar '/' u.path)
    let resolved0 := resolveSegments segments
    let resolved :=
      if segments.getLast? = some ['.'] ∨ segments.getLast? = some ['.', '.']
      then resolved0 ++ [[]] else resolved0
    let newPath0 := joinOnChar '/' resolved
    let newPath := if newPath0 = [] then ['/'] else newPath0
    urlunsplit ⟨u.scheme, netloc, newPath, u.query, u.fragment⟩

/-- Model of `urllib.parse.urljoin(base, url)` for ASCII URLs without
parameter sections, following the branch structure of the CPython
implementation. -/
def urljoin (base url : List Char) : List Char :=
  if base = [] then url
  else if url = [] then base
  else
    let b := urlsplitD [] base
    let u := urlsplitD b.scheme url
    if u.scheme ≠ b.scheme ∨ ¬ u.scheme ∈ usesRelative then url
    else if u.scheme ∈ usesNetloc then
      (if u.netloc ≠ [] then urlunsplit ⟨u.scheme, u.netloc, u.path, u.query, u.fragment⟩
       else urljoinPath u b b.netloc)
    else urljoinPath u b u.netloc

/-- Configured list of common subpage slugs, `constants.COMMON_SUBPAGE_NAMES`. -/
def COMMON_SUBPAGE_NAMES : List (List Char) :=
  (["about-us", "about", "team", "meet-the-team", "services", "products",
    "our-work", "testimonials", "reviews", "portfolio", "gallery",
    "pricing", "rates", "faqs", "contact", "contact-us",
    "support", "help", "careers", "jobs", "our-story",
    "mission", "vision", "values", "ethics", "history",
    "management", "staff", "leadership", "executives", "directors",
    "clients", "customers", "partners", "investors", "stakeholders",
    "certifications", "accreditations", "awards", "honors", "recognition",
    "press", "media", "news", "events", "webinars",
    "seminars", "workshops", "conferences", "exhibitions", "tradeshows",
    "case-studies", "whitepapers", "reports", "ebooks", "guides",
    "blog", "insights", "resources", "articles", "papers",
    "newsletters", "announcements", "updates", "releases", "publications",
    "privacy-policy", "terms-of-service", "legal", "compliance", "security",
    "login", "register", "signup", "dashboard", "forums",
    "community", "support-center", "faq", "help-center", "store",
    "shop", "booking", "schedule", "appointments", "locations",
    "offices", "branches", "contact-form", "inquiry", "get-a-quote",
    "find-us"].map String.toList)

/-- Configured maximum aggregate text length, `constants.MAX_SCRAPED_TEXT_LENGTH`. -/
def MAX_SCRAPED_TEXT_LENGTH : Nat := 500000

/-- Configured binary file extensions to skip, `constants.SKIP_EXTENSIONS`. -/
def SKIP_EXTENSIONS : List (List Char) :=
  ([".pdf", ".jpg", ".png", ".jpeg", ".gif", ".bmp", ".tiff"].map String.toList)

/-- Model of `is_internal_url(base_url, url)`: compares the netloc of the
candidate URL, as written, with the netloc of the base URL. -/
def is_internal_url (base_url url : List Char) : Bool :=
  (urlsplit url).netloc == (urlsplit base_url).netloc

/-- Parsed HTML document node, the level at which BeautifulSoup hands parsed
pages to this code: an element with a tag and children, or a text node. -/
inductive Node where
  | elem (tag : List Char) (children : List Node)
  | text (s : List Char)

/-- Tags removed before text extraction in `get_text_from_url`. -/
def badTags : List (List Char) := (["script", "style"].map String.toList)

/-- Tag of paragraph elements collected by `soup.find_all` in
`get_text_from_url`. -/
def pTag : List Char := "p".toList

/-- Model of the decompose loop of `get_text_from_url`: every `script` and
`style` element is removed from the tree together with its contents. -/
def removeTagsList : List Node → List Node
  | [] => []
  | .text s :: rest => .text s :: removeTagsList rest
  | .elem t cs :: rest =>
    if t ∈ badTags then removeTagsList rest
    else .elem t (removeTagsList cs) :: removeTagsList rest

/-- Model of `soup.find_all` for paragraph tags: all paragraph elements in
document order, an element before the matches among its descendants. -/
def findAllPList : List Node → List Node
  | [] => []
  | .text _ :: rest => findAllPList rest
  | .elem t cs :: rest =>
    (if t = pTag then [Node.elem t cs] else []) ++ findAllPList cs ++ findAllPList rest

/-- Text fragments of a forest in document order. -/
def fragmentsList : List Node → List (List Char)
  | [] => []
  | .text s :: rest => s :: fragmentsList rest
  | .elem _ cs :: rest => fragmentsList cs ++ fragmentsList rest

/-- Model of BeautifulSoup `get_text(strip=True)` on one node: each text
fragment is stripped of surrounding whitespace and the results are
concatenated. -/
def getTextStrip (n : Node) : List Char :=
  ((fragmentsList [n]).map pyTrim).flatten

/-- Text-extraction pipeline of `get_text_from_url` on a parsed document:
remove `script` and `style` subtrees, then join the stripped text of every
paragraph element with a newline. -/
def extractAllText (doc : List Node) : List Char :=
  List.intercalate ['\n'] ((findAllPList (removeTagsList doc)).map getTextStrip)

/-- Outcome of the HTTP fetch inside `get_text_from_url`: a parsed document on
success, a `requests.RequestException` (which that function catches), or any
other exception (which propagates). -/
inductive FetchOutcome where
  | ok (doc : List Node)
  | reqErr
  | raiseExn

/-- Outcome of the discovery fetch inside `get_subpages`: an HTTP response
with a status code and the href attributes of the anchors on the page, or a
network exception raised by `requests.get` (which `get_subpages` does not
catch). -/
inductive DiscOutcome where
  | resp (status : Nat) (hrefs : List (List Char))
  | raiseExn

/-- Environment a crawl runs against: the network behavior of the discovery
fetch and of the per-page fetch for every URL. -/
structure Env where
  disc : List Char → DiscOutcome
  fetch : List Char → FetchOutcome

/-- Test shared by `get_text_from_url` and `scrape_single_page`: does the
lowercased URL string end with a configured binary extension. -/
def skipUrl (url : List Char) : Bool :=
  SKIP_EXTENSIONS.any (fun ext => ext.isSuffixOf (pyLower url))

/-- Model of `get_text_from_url(url)`: empty string for skip-extension URLs
without touching the network; `None` when the request raises a caught
`requests.RequestException`; an uncaught exception otherwise on failure;
the extracted paragraph text on success. -/
def get_text_from_url (env : Env) (url : List Char) : Except Unit (Option (List Char)) :=
  if skipUrl url then .ok (some [])
  else
    match env.fetch url with
    | .raiseExn => .error ()
    | .reqErr => .ok none
    | .ok doc => .ok (some (extractAllText doc))

/-- Python `x or ""` applied to an optional string: `None` and the empty
string both collapse to the empty string. -/
def pyOrEmpty (o : Option (List Char)) : List Char :=
  match o with
  | none => []
  | some s => s

/-- Model of `scrape_single_page(url)`: empty string for skip-extension URLs,
otherwise the result of `get_text_from_url` with `None` coerced to the empty
string; exceptions other than the caught request errors pass through. -/
def scrape_single_page (env : Env) (url : List Char) : Except Unit (List Char) :=
  if skipUrl url then .ok []
  else (get_text_from_url env url).map pyOrEmpty

/-- Python value returned by `get_subpages`: a `set` on the success path but
a `list` on the non-success-status path. -/
inductive PyVal where
  | pySet (elems : List (List Char))
  | pyList (elems : List (List Char))
deriving DecidableEq

/-- Exceptions that can escape `scrape_website`. -/
inductive PyErr where
  | attributeError
  | requestException
deriving DecidableEq

/-- Element list of a `PyVal`, in iteration order. -/
def PyVal.elems : PyVal → List (List Char)
  | .pySet l => l
  | .pyList l => l

/-- Python `set.add` modelled on an insertion-ordered duplicate-free list. -/
def setInsert (l : List (List Char)) (a : List Char) : List (List Char) :=
  if a ∈ l then l else l ++ [a]

/-- Anchor filter of `get_subpages`: keep an href when it is internal to the
page URL or its slash-stripped lowercased form is a common subpage slug, and
resolve kept hrefs against the page URL into the set. -/
def buildSubpages (url : List Char) (hrefs : List (List Char)) : List (List Char) :=
  hrefs.foldl
    (fun acc href =>
      if is_internal_url url href
          || COMMON_SUBPAGE_NAMES.contains (pyLower (pyStrip '/' href))
      then setInsert acc (urljoin url href)
      else acc) []

/-- Model of `get_subpages(url)`: a network exception propagates; a
non-success status yields the empty Python list; a success status yields the
set of filtered, resolved anchor targets. -/
def get_subpages (env : Env) (url : List Char) : Except PyErr PyVal :=
  match env.disc url with
  | .raiseExn => .error .requestException
  | .resp st hrefs =>
    if st ≠ 200 then .ok (.pyList [])
    else .ok (.pySet (buildSubpages url hrefs))

/-- Python attribute call `subpages.add(main_url)` in `scrape_website`: it
succeeds on a set and raises `AttributeError` on a list. -/
def pySetAdd (v : PyVal) (a : List Char) : Except PyErr PyVal :=
  match v with
  | .pySet l => .ok (.pySet (setInsert l a))
  | .pyList _ => .error .attributeError

/-- Page loop of `scrape_website`: scrape each page, keep nonempty texts, and
swallow any per-page exception. -/
def crawlPages (env : Env) : List (List Char) → List (List Char)
  | [] => []
  | p :: rest =>
    match scrape_single_page env p with
    | .error _ => crawlPages env rest
    | .ok t => if t ≠ [] then t :: crawlPages env rest else crawlPages env rest

/-- Model of `scrape_website(main_url)`: discover subpages, add the main URL
to the discovered collection, scrape every page, and return the collected
texts joined with single spaces.  No length cap is applied. -/
def scrape_website (env : Env) (main_url : List Char) : Except PyErr (List Char) := do
  let sub ← get_subpages env main_url
  let pages ← pySetAdd sub main_url
  pure (List.intercalate [' '] (crawlPages env pages.elems))

/-- Model of `check_scraped_text_length(scraped_text)`: truncate to the
configured maximum length when longer, identity otherwise. -/
def check_scraped_text_length (scraped_text : List Char) : List Char :=
  if scraped_text.length > MAX_SCRAPED_TEXT_LENGTH
  then scraped_text.take MAX_SCRAPED_TEXT_LENGTH
  else scraped_text

/-- Literal pattern searched for by `scrape_urls`. -/
def httpsPat : List Char := "https://".toList

/-- Characters that terminate a URL in `scrape_urls`: space, double quote,
single quote, newline, and the left angle bracket. -/
def isTermChar (c : Char) : Bool :=
  c == ' ' || c == '"' || c == Char.ofNat 39 || c == '\n' || c == '<'

/-- Does the lowercased input match the pattern at position `i`.  This is the
match test of `search_queries.lower().find(pattern, pos)` at one position. -/
def matchHttpsAt (s : List Char) (i : Nat) : Bool :=
  ((s.drop i).take 8).map Char.toLower == httpsPat

/-- Linear scan of `str.find` from a position, with explicit fuel.  The fuel
covers one check per position from `pos` through the end of the text, which
is exactly the range Python scans. -/
def findHttpsGo (s : List Char) : Nat → Nat → Option Nat
  | 0, _ => none
  | fuel + 1, pos =>
    if matchHttpsAt s pos then some pos
    else if s.length ≤ pos then none
    else findHttpsGo s fuel (pos + 1)

/-- Model of `search_queries.lower().find("https://", pos)`: the least
position at or after `pos` where the lowercased text matches the pattern,
or `none` in place of -1. -/
def findHttps (s : List Char) (pos : Nat) : Option Nat :=
  findHttpsGo s (s.length + 1 - pos) pos

/-- Loop body of `scrape_urls`, with explicit fuel.  Each iteration moves the
scan position strictly forward and only continues while the position is at
most the text length, so `s.length + 1` iterations always suffice: the fuel
never runs out when the function is entered through `scrape_urls`. -/
def scrapeUrlsGo (s : List Char) : Nat → Nat → List (List Char)
  | 0, _ => []
  | fuel + 1, pos =>
    match findHttps s pos with
    | none => []
    | some i =>
      let url := (s.drop i).takeWhile (fun c => !isTermChar c)
      url :: scrapeUrlsGo s fuel (i + url.length + 1)

/-- Model of `scrape_urls(search_queries)`: repeatedly find the next
case-insensitive occurrence of the pattern, extract up to the first
terminator character, and resume one position past the end of the match. -/
def scrape_urls (s : List Char) : List (List Char) :=
  scrapeUrlsGo s (s.length + 1) 0

/-- Model of `list(dict.fromkeys(urls))` in `scrape_articles`: deduplicate,
keeping the first occurrence of each entry in order. -/
def dedupKeysGo (seen : List (List Char)) : List (List Char) → List (List Char)
  | [] => []
  | a :: r =>
    if a ∈ seen then dedupKeysGo seen r
    else a :: dedupKeysGo (a :: seen) r

/-- Caller-side deduplication step applied to the extracted URL list. -/
def dedupKeys (l : List (List Char)) : List (List Char) := dedupKeysGo [] l

/-- Spec-side classifier following the specification wording for the binary
skip list: does the path component of the URL end, case-insensitively, with a
configured binary extension. -/
def pathSkipSpec (url : List Char) : Bool :=
  SKIP_EXTENSIONS.any (fun ext => ext.isSuffixOf (pyLower (urlsplit url).path))

/-- Spec-side classifier following the specification wording for
internal-URL checks: resolve the candidate against the base and compare the
resulting netloc with the netloc of the base. -/
def isInternalSpec (base_url url : List Char) : Bool :=
  (urlsplit (urljoin base_url url)).netloc == (urlsplit base_url).netloc

/-- Replace the contents of every `script` and `style` element with nothing,
keeping the element itself.  Used to state that extracted text never depends
on what stands inside those elements. -/
def eraseBadContents : List Node → List Node
  | [] => []
  | .text s :: rest => .text s :: eraseBadContents rest
  | .elem t cs :: rest =>
    (if t ∈ badTags then Node.elem t [] else Node.elem t (eraseBadContents cs))
      :: eraseBadContents rest

/-- Spec-side text collection: the text fragments of a forest in document
order, with `script` and `style` subtrees skipped entirely. -/
def cleanFrags : List Node → List (List Char)
  | [] => []
  | .text s :: rest => s :: cleanFrags rest
  | .elem t cs :: rest =>
    if t ∈ badTags then cleanFrags rest
    else cleanFrags cs ++ cleanFrags rest

/-- Spec-side paragraph extraction, written as one fused traversal following
the specification wording: for every paragraph element outside removed
subtrees, in document order, the stripped text of its contents. -/
def pSpecTexts : List Node → List (List Char)
  | [] => []
  | .text _ :: rest => pSpecTexts rest
  | .elem t cs :: rest =>
    if t ∈ badTags then pSpecTexts rest
    else if t = pTag then
      ((cleanFrags cs).map pyTrim).flatten :: (pSpecTexts cs ++ pSpecTexts rest)
    else pSpecTexts cs ++ pSpecTexts rest

/-!
Concrete fixtures used by counterexamples and witnesses: URLs, parsed pages
and network environments.
-/

/-- Root URL of the oversized-content crawl. -/
def mainUrlC1 : List Char := "https://a.com".toList

/-- One page text longer than the configured maximum aggregate length. -/
def bigTextC1 : List Char := List.replicate (MAX_SCRAPED_TEXT_LENGTH + 1) 'a'

/-- Parsed page holding the oversized paragraph. -/
def docC1 : List Node := [Node.elem pTag [Node.text bigTextC1]]

/-- Environment for the oversized-content crawl: discovery succeeds with no
anchors and the root page carries one oversized paragraph. -/
def envC1 : Env :=
  { disc := fun _ => .resp 200 [],
    fetch := fun u => if u == mainUrlC1 then .ok docC1 else .reqErr }

/-- Environment whose discovery succeeds with no anchors and whose page
fetches all fail with a caught request error. -/
def envC1W : Env :=
  { disc := fun _ => .resp 200 [],
    fetch := fun _ => .reqErr }

/-- Root URL of the failed-discovery crawl. -/
def mainUrlC2 : List Char := "https://example.com".toList

/-- Environment whose discovery fetch returns HTTP 500 for every URL. -/
def envC2 : Env :=
  { disc := fun _ => .resp 500 [],
    fetch := fun _ => .reqErr }

/-- A URL whose path ends with a binary extension while the whole URL string
does not, because of a query string. -/
def urlC4 : List Char := "https://x.com/doc.pdf?v=1".toList

/-- Parsed page with one short paragraph, fetched for the query-string URL. -/
def docC4 : List Node := [Node.elem pTag [Node.text "Hi".toList]]

/-- Environment in which the query-string URL fetch succeeds. -/
def envC4A : Env :=
  { disc := fun _ => .raiseExn,
    fetch := fun u => if u == urlC4 then .ok docC4 else .reqErr }

/-- Environment in which every page fetch fails with a caught request error. -/
def envC4B : Env :=
  { disc := fun _ => .raiseExn,
    fetch := fun _ => .reqErr }

/-- URL of the script-containing page. -/
def urlC6 : List Char := "https://mysite.com/page".toList

/-- Parsed page whose body holds a script element followed by a paragraph. -/
def docC6 : List Node :=
  [Node.elem ("body".toList)
    [Node.elem ("script".toList) [Node.text ("evil()".toList)],
     Node.elem ("p".toList) [Node.text ("Hello".toList)]]]

/-- Environment serving the script-containing page. -/
def envC6 : Env :=
  { disc := fun _ => .raiseExn,
    fetch := fun u => if u == urlC6 then .ok docC6 else .reqErr }

/-- Root URL of the discovery scenario. -/
def rootC7 : List Char := "https://mysite.com".toList

/-- Environment whose root page links to a relative common-slug subpage and
to an external absolute URL. -/
def envC7 : Env :=
  { disc := fun u => if u == rootC7
      then .resp 200 ["/about-us".toList, "https://external.com/partner".toList]
      else .raiseExn,
    fetch := fun _ => .reqErr }

/-- URL whose fetch fails with a caught request error in the error-handling
witness environment. -/
def urlC8a : List Char := "https://w.com/one".toList

/-- URL whose fetch raises an uncaught exception in the error-handling
witness environment. -/
def urlC8b : List Char := "https://w.com/two".toList

/-- Environment exercising both per-page failure modes. -/
def envC8 : Env :=
  { disc := fun _ => .raiseExn,
    fetch := fun u => if u == urlC8b then .raiseExn else .reqErr }

/-!
Helper lemmas.
-/

theorem dedupKeysGo_cons_mem {seen : List (List Char)} {a : List Char}
    (l : List (List Char)) (h : a ∈ seen) :
    dedupKeysGo seen (a :: l) = dedupKeysGo seen l := by
  simp only [dedupKeysGo]; rw [if_pos h]

theorem dedupKeysGo_cons_not_mem {seen : List (List Char)} {a : List Char}
    (l : List (List Char)) (h : a ∉ seen) :
    dedupKeysGo seen (a :: l) = a :: dedupKeysGo (a :: seen) l := by
  simp only [dedupKeysGo]; rw [if_neg h]

theorem dedupKeysGo_sublist (seen : List (List Char)) (l : List (List Char)) :
    List.Sublist (dedupKeysGo seen l) l := by
  induction l generalizing seen with
  | nil => simp [dedupKeysGo]
  | cons a r ih =>
    by_cases h : a ∈ seen
    · simp only [dedupKeysGo, if_pos h]
      exact (ih seen).cons a
    · simp only [dedupKeysGo, if_neg h]
      exact (ih (a :: seen)).cons₂ a

theorem mem_dedupKeysGo_not_seen (seen : List (List Char)) (l : List (List Char)) :
    ∀ x ∈ dedupKeysGo seen l, x ∉ seen := by
  induction l generalizing seen with
  | nil => simp [dedupKeysGo]
  | cons a r ih =>
    intro x hx
    by_cases h : a ∈ seen
    · simp only [dedupKeysGo, if_pos h] at hx
      exact ih seen x hx
    · simp only [dedupKeysGo, if_neg h] at hx
      rcases List.mem_cons.1 hx with rfl | hx
      · exact h
      · have := ih (a :: seen) x hx
        simp only [List.mem_cons, not_or] at this
        exact this.2

theorem dedupKeysGo_nodup (seen : List (List Char)) (l : List (List Char)) :
    (dedupKeysGo seen l).Nodup := by
  induction l generalizing seen with
  | nil => simp [dedupKeysGo]
  | cons a r ih =>
    by_cases h : a ∈ seen
    · simp only [dedupKeysGo, if_pos h]; exact ih seen
    · simp only [dedupKeysGo, if_neg h]
      refine List.nodup_cons.2 ⟨?_, ih (a :: seen)⟩
      intro hmem
      have := mem_dedupKeysGo_not_seen (a :: seen) r a hmem
      simp at this

theorem dedupKeysGo_congr_seen (seen seen' : List (List Char)) (l : List (List Char))
    (h : ∀ x, x ∈ seen ↔ x ∈ seen') :
    dedupKeysGo seen l = dedupKeysGo seen' l := by
  induction l generalizing seen seen' with
  | nil => simp [dedupKeysGo]
  | cons a r ih =>
    by_cases ha : a ∈ seen'
    · simp only [dedupKeysGo, if_pos ha, if_pos ((h a).2 ha)]
      exact ih seen seen' h
    · simp only [dedupKeysGo, if_neg ha, if_neg (fun hc => ha ((h a).1 hc))]
      refine congrArg (a :: ·) (ih (a :: seen) (a :: seen') ?_)
      intro x; simp [List.mem_cons, h x]

theorem dedupKeysGo_seen_filter (a : List Char) (seen : List (List Char))
    (l : List (List Char)) :
    dedupKeysGo (a :: seen) l = dedupKeysGo seen (l.filter (fun x => x != a)) := by
  induction l generalizing seen with
  | nil => simp [dedupKeysGo]
  | cons b r ih =>
    by_cases hb : b = a
    · subst hb
      rw [List.filter_cons_of_neg (by simp),
        dedupKeysGo_cons_mem r (List.mem_cons.2 (Or.inl rfl))]
      exact ih seen
    · rw [List.filter_cons_of_pos (by simp [hb])]
      by_cases hs : b ∈ seen
      · rw [dedupKeysGo_cons_mem r (List.mem_cons.2 (Or.inr hs)),
          dedupKeysGo_cons_mem _ hs]
        exact ih seen
      · have hnot : b ∉ a :: seen := by
          simp only [List.mem_cons, not_or]; exact ⟨hb, hs⟩
        rw [dedupKeysGo_cons_not_mem r hnot, dedupKeysGo_cons_not_mem _ hs]
        refine congrArg (b :: ·) ?_
        calc dedupKeysGo (b :: a :: seen) r
            = dedupKeysGo (a :: b :: seen) r :=
              dedupKeysGo_congr_seen _ _ _
                (fun x => by simp only [List.mem_cons]; tauto)
          _ = dedupKeysGo (b :: seen) (r.filter (fun x => x != a)) := ih (b :: seen)

theorem findHttpsGo_some {s : List Char} {fuel pos i : Nat}
    (h : findHttpsGo s fuel pos = some i) :
    pos ≤ i ∧ matchHttpsAt s i = true := by
  induction fuel generalizing pos with
  | zero => simp [findHttpsGo] at h
  | succ fuel ih =>
    by_cases hm : matchHttpsAt s pos
    · rw [findHttpsGo, if_pos hm] at h
      cases h
      exact ⟨Nat.le_refl _, hm⟩
    · rw [findHttpsGo, if_neg hm] at h
      by_cases hl : s.length ≤ pos
      · rw [if_pos hl] at h; cases h
      · rw [if_neg hl] at h
        obtain ⟨h1, h2⟩ := ih h
        exact ⟨Nat.le_of_succ_le h1, h2⟩

theorem findHttps_some {s : List Char} {pos i : Nat}
    (h : findHttps s pos = some i) :
    pos ≤ i ∧ matchHttpsAt s i = true :=
  findHttpsGo_some h

theorem scrapeUrlsGo_spec (s : List Char) (fuel : Nat) : ∀ pos : Nat,
    ∃ ps : List Nat, ps.Pairwise (· < ·)
      ∧ (∀ i ∈ ps, pos ≤ i ∧ matchHttpsAt s i = true)
      ∧ scrapeUrlsGo s fuel pos
          = ps.map (fun i => (s.drop i).takeWhile (fun c => !isTermChar c)) := by
  induction fuel with
  | zero => intro pos; exact ⟨[], by simp, by simp, by simp [scrapeUrlsGo]⟩
  | succ fuel ih =>
    intro pos
    rcases hf : findHttps s pos with _ | i
    · exact ⟨[], by simp, by simp, by simp [scrapeUrlsGo, hf]⟩
    · obtain ⟨hpos, hmatch⟩ := findHttps_some hf
      set u := (s.drop i).takeWhile (fun c => !isTermChar c) with hu
      obtain ⟨ps, hpair, hmem, heq⟩ := ih (i + u.length + 1)
      refine ⟨i :: ps, ?_, ?_, ?_⟩
      · refine List.pairwise_cons.2 ⟨?_, hpair⟩
        intro j hj
        have := (hmem j hj).1
        omega
      · intro j hj
        rcases List.mem_cons.1 hj with rfl | hj
        · exact ⟨hpos, hmatch⟩
        · obtain ⟨h1, h2⟩ := hmem j hj
          exact ⟨by omega, h2⟩
      · simp only [scrapeUrlsGo, hf, List.map_cons]
        exact congrArg (u :: ·) heq

theorem crawlPages_eq_filterMap (env : Env) (l : List (List Char)) :
    crawlPages env l = l.filterMap (fun p =>
      match scrape_single_page env p with
      | .error _ => none
      | .ok t => if t = [] then none else some t) := by
  induction l with
  | nil => simp [crawlPages]
  | cons p rest ih =>
    rcases hp : scrape_single_page env p with e | t
    · simp [crawlPages, hp, List.filterMap_cons, ih]
    · by_cases ht : t = []
      · subst ht
        simp [crawlPages, hp, List.filterMap_cons, ih]
      · simp [crawlPages, hp, List.filterMap_cons, ih, ht]

theorem crawlPages_drop_error (env : Env) (l₁ l₂ : List (List Char)) (p : List Char)
    (h : scrape_single_page env p = .error ()) :
    crawlPages env (l₁ ++ p :: l₂) = crawlPages env (l₁ ++ l₂) := by
  induction l₁ with
  | nil => simp [crawlPages, h]
  | cons q rest ih =>
    rcases hq : scrape_single_page env q with e | t
    · simp [crawlPages, hq, ih]
    · simp [crawlPages, hq, ih]

theorem intercalate_singleton (sep x : List Char) :
    List.intercalate sep [x] = x := by
  simp [List.intercalate, List.intersperse]

theorem dropWhile_replicate_of_false {p : Char → Bool} {a : Char} (hp : p a = false)
    (n : Nat) : List.dropWhile p (List.replicate n a) = List.replicate n a := by
  induction n with
  | zero => simp
  | succ n ih => simp [List.replicate, List.dropWhile, hp]

theorem pyTrim_replicate_a (n : Nat) :
    pyTrim (List.replicate n 'a') = List.replicate n 'a' := by
  have hp : isSpaceChar 'a' = false := by decide
  unfold pyTrim
  rw [dropWhile_replicate_of_false hp, List.reverse_replicate,
    dropWhile_replicate_of_false hp, List.reverse_replicate]

theorem removeTagsList_append (l₁ l₂ : List Node) :
    removeTagsList (l₁ ++ l₂) = removeTagsList l₁ ++ removeTagsList l₂ := by
  induction l₁ with
  | nil => simp [removeTagsList]
  | cons n rest ih =>
    cases n with
    | text s => simp [removeTagsList, ih]
    | elem t cs =>
      by_cases hbad : t ∈ badTags
      · simp [removeTagsList, hbad, ih]
      · simp [removeTagsList, hbad, ih]

theorem findAllPList_append (l₁ l₂ : List Node) :
    findAllPList (l₁ ++ l₂) = findAllPList l₁ ++ findAllPList l₂ := by
  induction l₁ with
  | nil => simp [findAllPList]
  | cons n rest ih =>
    cases n with
    | text s => simp [findAllPList, ih]
    | elem t cs => simp [findAllPList, ih]

theorem fragmentsList_append (l₁ l₂ : List Node) :
    fragmentsList (l₁ ++ l₂) = fragmentsList l₁ ++ fragmentsList l₂ := by
  induction l₁ with
  | nil => simp [fragmentsList]
  | cons n rest ih =>
    cases n with
    | text s => simp [fragmentsList, ih]
    | elem t cs => simp [fragmentsList, ih]

theorem removeTagsList_eraseBadContents (l : List Node) :
    removeTagsList (eraseBadContents l) = removeTagsList l := by
  induction l using removeTagsList.induct with
  | case1 => simp [eraseBadContents, removeTagsList]
  | case2 s rest ih => simp [eraseBadContents, removeTagsList, ih]
  | case3 t cs rest hbad ih =>
    simp [eraseBadContents, removeTagsList, hbad, ih]
  | case4 t cs rest hbad ih1 ih2 =>
    simp [eraseBadContents, removeTagsList, hbad, ih1, ih2]

theorem fragmentsList_removeTagsList (l : List Node) :
    fragmentsList (removeTagsList l) = cleanFrags l := by
  induction l using removeTagsList.induct with
  | case1 => simp [removeTagsList, cleanFrags, fragmentsList]
  | case2 s rest ih => simp [removeTagsList, cleanFrags, fragmentsList, ih]
  | case3 t cs rest hbad ih =>
    simp [removeTagsList, cleanFrags, hbad, ih]
  | case4 t cs rest hbad ih1 ih2 =>
    simp [removeTagsList, cleanFrags, fragmentsList, hbad, ih1, ih2]

theorem getTextStrip_elem (t : List Char) (cs : List Node) :
    getTextStrip (Node.elem t cs) = ((fragmentsList cs).map pyTrim).flatten := by
  simp [getTextStrip, fragmentsList]

theorem map_getTextStrip_eq_pSpecTexts (l : List Node) :
    (findAllPList (removeTagsList l)).map getTextStrip = pSpecTexts l := by
  induction l using pSpecTexts.induct with
  | case1 => simp [removeTagsList, findAllPList, pSpecTexts]
  | case2 s rest ih => simp [removeTagsList, findAllPList, pSpecTexts, ih]
  | case3 t cs rest hbad ih =>
    simp [removeTagsList, pSpecTexts, hbad, ih]
  | case4 cs rest hnb ih1 ih2 =>
    rw [show removeTagsList (Node.elem pTag cs :: rest)
        = Node.elem pTag (removeTagsList cs) :: removeTagsList rest from by
      simp only [removeTagsList]; rw [if_neg hnb]]
    rw [show pSpecTexts (Node.elem pTag cs :: rest)
        = ((cleanFrags cs).map pyTrim).flatten :: (pSpecTexts cs ++ pSpecTexts rest) from by
      simp only [pSpecTexts]; rw [if_neg hnb]; simp]
    simp only [findAllPList, List.map_cons, List.map_append, ih1, ih2,
      getTextStrip_elem, fragmentsList_removeTagsList]
    simp
    rw [getTextStrip_elem, fragmentsList_removeTagsList]
  | case5 t cs rest hnb hnp ih1 ih2 =>
    rw [show removeTagsList (Node.elem t cs :: rest)
        = Node.elem t (removeTagsList cs) :: removeTagsList rest from by
      simp only [removeTagsList]; rw [if_neg hnb]]
    rw [show pSpecTexts (Node.elem t cs :: rest)
        = pSpecTexts cs ++ pSpecTexts rest from by
      simp only [pSpecTexts]; rw [if_neg hnb, if_neg hnp]]
    simp only [findAllPList, if_neg hnp, List.nil_append, List.map_append, ih1, ih2]

theorem parseScheme_rooted (u' : List Char) :
    parseScheme [] ('/' :: u') = ([], '/' :: u') := by
  have htw : List.takeWhile (fun c => c != ':') ('/' :: u')
      = '/' :: List.takeWhile (fun c => c != ':') u' := by
    simp [List.takeWhile_cons]
  have hdw : List.dropWhile (fun c => c != ':') ('/' :: u')
      = List.dropWhile (fun c => c != ':') u' := by
    simp [List.dropWhile_cons]
  unfold parseScheme splitAtFirst
  rw [hdw, htw]
  cases hc : List.dropWhile (fun c => c != ':') u' with
  | nil => rfl
  | cons x r => simp

theorem parseNetloc_rooted (u : List Char) (h2 : u.take 2 ≠ ['/', '/']) :
    parseNetloc u = ([], u) := by
  unfold parseNetloc
  rw [if_neg h2]

theorem urlsplit_rooted_netloc (u : List Char)
    (h1 : u.head? = some '/') (h2 : u.take 2 ≠ ['/', '/']) :
    (urlsplit u).netloc = [] := by
  cases u with
  | nil => simp at h1
  | cons c u' =>
    obtain rfl : c = '/' := by simpa using h1
    unfold urlsplit urlsplitD
    rw [parseScheme_rooted]
    simp only [parseNetloc_rooted _ h2]

theorem dedupKeys_cons (a : List Char) (l : List (List Char)) :
    dedupKeys (a :: l) = a :: dedupKeys (l.filter (fun x => x != a)) := by
  unfold dedupKeys
  rw [dedupKeysGo, if_neg (List.not_mem_nil a)]
  exact congrArg (a :: ·) (dedupKeysGo_seen_filter a [] l)

/-!
Claim theorems.
-/

/-- Claim C10: for every string, `check_scraped_text_length` returns a prefix
of its input whose length is the minimum of the input length and
`MAX_SCRAPED_TEXT_LENGTH`, and is the identity whenever the input is within
the cap. -/
theorem check_scraped_text_length_prefix_min (s : List Char) :
    List.IsPrefix (check_scraped_text_length s) s
    ∧ (check_scraped_text_length s).length = min s.length MAX_SCRAPED_TEXT_LENGTH
    ∧ (s.length ≤ MAX_SCRAPED_TEXT_LENGTH → check_scraped_text_length s = s) := by
  unfold check_scraped_text_length
  by_cases h : s.length > MAX_SCRAPED_TEXT_LENGTH
  · rw [if_pos h]
    refine ⟨⟨s.drop MAX_SCRAPED_TEXT_LENGTH, List.take_append_drop _ s⟩, ?_, ?_⟩
    · rw [List.length_take]; omega
    · intro hle; omega
  · rw [if_neg h]
    refine ⟨List.prefix_refl s, ?_, fun _ => rfl⟩
    omega

/-- Witness for claim C10 at a concrete short input. -/
theorem check_scraped_text_length_prefix_min_witness :
    check_scraped_text_length ("ab".toList) = "ab".toList :=
  (check_scraped_text_length_prefix_min ("ab".toList)).2.2 (by decide)

/-- Claim C9: the caller-side deduplication keeps exactly the first
occurrence of each distinct URL, preserving the order of first occurrences:
its output is an order-preserving sublist without duplicates, it satisfies
the keep-first recursion, and on the concrete three-URL extraction it yields
the two distinct URLs in first-seen order. -/
theorem dedup_keeps_first_occurrences :
    (∀ l : List (List Char), List.Sublist (dedupKeys l) l)
    ∧ (∀ l : List (List Char), (dedupKeys l).Nodup)
    ∧ (∀ (a : List Char) (l : List (List Char)),
        dedupKeys (a :: l) = a :: dedupKeys (l.filter (fun x => x != a)))
    ∧ dedupKeys (scrape_urls ("https://a.com https://b.com https://a.com".toList))
        = ["https://a.com".toList, "https://b.com".toList] := by
  refine ⟨fun l => dedupKeysGo_sublist [] l, fun l => dedupKeysGo_nodup [] l,
    dedupKeys_cons, by decide⟩

/-- Claim C5: every element produced by `scrape_urls` is the contiguous
substring of the input that starts at a position where the lowercased text
matches the HTTPS pattern and extends up to the first terminator character
(space, double quote, single quote, newline, left angle bracket) or the end
of the input, the elements appear in strictly increasing order of position,
and the extractor is deterministic. -/
theorem scrape_urls_extraction_spec (s : List Char) :
    (∃ ps : List Nat, ps.Pairwise (· < ·)
      ∧ (∀ i ∈ ps, matchHttpsAt s i = true)
      ∧ scrape_urls s = ps.map (fun i => (s.drop i).takeWhile (fun c => !isTermChar c)))
    ∧ scrape_urls s = scrape_urls s := by
  refine ⟨?_, rfl⟩
  obtain ⟨ps, h1, h2, h3⟩ := scrapeUrlsGo_spec s (s.length + 1) 0
  exact ⟨ps, h1, fun i hi => (h2 i hi).2, h3⟩

/-- Claim C7: on a root page linking to the relative common-slug href and to
an external absolute URL, discovery returns exactly the singleton set holding
the slug href resolved against the root, so the external URL is excluded. -/
theorem get_subpages_common_slug_scenario :
    get_subpages envC7 rootC7 = .ok (.pySet ["https://mysite.com/about-us".toList])
    ∧ "https://mysite.com/about-us".toList = urljoin rootC7 ("/about-us".toList)
    ∧ is_internal_url rootC7 ("https://external.com/partner".toList) = false
    ∧ COMMON_SUBPAGE_NAMES.contains
        (pyLower (pyStrip '/' ("https://external.com/partner".toList))) = false :=
  ⟨rfl, rfl, by decide, by decide⟩

/-- Claim C2: when the discovery fetch returns HTTP 500, `get_subpages`
returns the empty Python list without raising, but `scrape_website` then
calls the set method `add` on that list and aborts with `AttributeError`
instead of scraping the root URL. -/
theorem scrape_website_crashes_on_500_discovery :
    get_subpages envC2 mainUrlC2 = .ok (.pyList [])
    ∧ scrape_website envC2 mainUrlC2 = .error .attributeError :=
  ⟨rfl, rfl⟩

/-- Claim C3 counterexample: for a base URL with netloc `example.com` and the
rooted relative candidate `/y`, resolving the candidate against the base
preserves the netloc of the base, yet `is_internal_url` returns false, so the
claimed equivalence with the resolved comparison fails. -/
theorem is_internal_url_resolution_counterexample :
    is_internal_url ("https://example.com/x".toList) ("/y".toList) = false
    ∧ (urlsplit (urljoin ("https://example.com/x".toList) ("/y".toList))).netloc
        = (urlsplit ("https://example.com/x".toList)).netloc
    ∧ (urlsplit ("https://example.com/x".toList)).netloc ≠ [] :=
  ⟨by decide, by decide, by decide⟩

/-- Claim C3 amended: `is_internal_url` returns true exactly when the netloc
of the candidate as written, without resolution against the base, equals the
netloc of the base; consequently a rooted relative candidate (a path starting
with one slash) is never internal to a base with a nonempty netloc. -/
theorem is_internal_url_amended :
    (∀ base_url url : List Char,
      is_internal_url base_url url = true
        ↔ (urlsplit url).netloc = (urlsplit base_url).netloc)
    ∧ (∀ base_url url : List Char, (urlsplit base_url).netloc ≠ [] →
        url.head? = some '/' → url.take 2 ≠ ['/', '/'] →
        is_internal_url base_url url = false) := by
  constructor
  · intro b u
    unfold is_internal_url
    exact beq_iff_eq
  · intro b u hb h1 h2
    rcases hn : (urlsplit b).netloc with _ | ⟨c, l⟩
    · exact absurd hn hb
    · unfold is_internal_url
      rw [urlsplit_rooted_netloc u h1 h2, hn]
      rfl

/-- Witness for the amended claim C3 at a concrete base and candidate. -/
theorem is_internal_url_amended_witness :
    is_internal_url ("https://example.com".toList) ("/y".toList) = false :=
  is_internal_url_amended.2 ("https://example.com".toList) ("/y".toList)
    (by decide) (by decide) (by decide)

/-- Claim C4 counterexample: the URL path `/doc.pdf` ends with a configured
binary extension, yet with a query string appended the whole URL does not, so
`get_text_from_url` reaches the network branch: it returns the fetched page
text in one environment and `None` in another, instead of returning the empty
string immediately. -/
theorem skip_extension_path_counterexample :
    pathSkipSpec urlC4 = true
    ∧ get_text_from_url envC4A urlC4 = .ok (some ("Hi".toList))
    ∧ get_text_from_url envC4B urlC4 = .ok none
    ∧ scrape_single_page envC4A urlC4 = .ok ("Hi".toList) := by
  have h : skipUrl urlC4 = false := by decide
  refine ⟨by decide, ?_, ?_, ?_⟩
  · simp [get_text_from_url, envC4A, h, docC4, extractAllText, removeTagsList,
      badTags, findAllPList, pTag, getTextStrip, fragmentsList, pyTrim,
      isSpaceChar, List.intercalate]
  · simp [get_text_from_url, envC4B, h]
  · simp [scrape_single_page, get_text_from_url, envC4A, h, docC4, extractAllText,
      removeTagsList, badTags, findAllPList, pTag, getTextStrip, fragmentsList,
      pyTrim, isSpaceChar, List.intercalate, pyOrEmpty, Except.map]

/-- Claim C4 amended: for every URL whose whole string, lowercased, ends with
a configured binary extension, `get_text_from_url` and `scrape_single_page`
return the empty string immediately, in every network environment, so the
network branch is never reached. -/
theorem skip_extension_whole_url_amended (env : Env) (url : List Char)
    (h : skipUrl url = true) :
    get_text_from_url env url = .ok (some [])
    ∧ scrape_single_page env url = .ok [] := by
  constructor
  · simp [get_text_from_url, h]
  · simp [scrape_single_page, h]

/-- Witness for the amended claim C4 at a concrete uppercase-extension URL. -/
theorem skip_extension_whole_url_amended_witness :
    get_text_from_url envC4B ("https://x.com/a.PDF".toList) = .ok (some [])
    ∧ scrape_single_page envC4B ("https://x.com/a.PDF".toList) = .ok [] :=
  skip_extension_whole_url_amended envC4B ("https://x.com/a.PDF".toList) (by decide)

/-- Claim C6: on the page whose body holds a script element and a paragraph,
extraction returns exactly the paragraph text; in general the extracted text
does not depend on the contents of `script` and `style` subtrees, and equals
the stripped texts of all paragraph elements outside removed subtrees joined
by newlines. -/
theorem script_style_text_never_included :
    get_text_from_url envC6 urlC6 = .ok (some ("Hello".toList))
    ∧ scrape_single_page envC6 urlC6 = .ok ("Hello".toList)
    ∧ (∀ doc : List Node, extractAllText (eraseBadContents doc) = extractAllText doc)
    ∧ (∀ doc : List Node,
        extractAllText doc = List.intercalate ['\n'] (pSpecTexts doc)) := by
  have h : skipUrl urlC6 = false := by decide
  refine ⟨?_, ?_, ?_, ?_⟩
  · simp [get_text_from_url, envC6, h, docC6, extractAllText, removeTagsList,
      badTags, findAllPList, pTag, getTextStrip, fragmentsList, pyTrim,
      isSpaceChar, List.intercalate]
  · simp [scrape_single_page, get_text_from_url, envC6, h, docC6, extractAllText,
      removeTagsList, badTags, findAllPList, pTag, getTextStrip, fragmentsList,
      pyTrim, isSpaceChar, List.intercalate, pyOrEmpty, Except.map]
  · intro doc
    unfold extractAllText
    rw [removeTagsList_eraseBadContents]
  · intro doc
    unfold extractAllText
    rw [map_getTextStrip_eq_pSpecTexts]

/-- Claim C8: a caught request failure surfaces as `None` from
`get_text_from_url`; `scrape_single_page` coerces that to the empty string
(its successful result is always a string); and the crawl loop of
`scrape_website` drops any page whose scrape raises, continuing with the
remaining pages. -/
theorem page_failures_never_propagate :
    (∀ (env : Env) (url : List Char), skipUrl url = false →
        env.fetch url = .reqErr → get_text_from_url env url = .ok none)
    ∧ (∀ (env : Env) (url : List Char) (o : Option (List Char)),
        get_text_from_url env url = .ok o →
        scrape_single_page env url = .ok (pyOrEmpty o))
    ∧ (∀ (env : Env) (l₁ l₂ : List (List Char)) (p : List Char),
        scrape_single_page env p = .error () →
        crawlPages env (l₁ ++ p :: l₂) = crawlPages env (l₁ ++ l₂)) := by
  refine ⟨?_, ?_, crawlPages_drop_error⟩
  · intro env url hskip hf
    simp [get_text_from_url, hskip, hf]
  · intro env url o h
    by_cases hskip : skipUrl url
    · unfold get_text_from_url at h
      rw [if_pos hskip] at h
      cases h
      simp [scrape_single_page, hskip, pyOrEmpty]
    · unfold scrape_single_page
      rw [if_neg hskip, h]
      rfl

/-- Witness for claim C8: one URL failing with a caught request error yields
empty content, and one URL raising an uncaught exception is dropped by the
crawl loop. -/
theorem page_failures_never_propagate_witness :
    get_text_from_url envC8 urlC8a = .ok none
    ∧ scrape_single_page envC8 urlC8a = .ok []
    ∧ crawlPages envC8 [urlC8b] = crawlPages envC8 [] := by
  have hfa : envC8.fetch urlC8a = .reqErr := by
    simp [envC8, urlC8a, urlC8b]
  have h1 : get_text_from_url envC8 urlC8a = .ok none :=
    page_failures_never_propagate.1 envC8 urlC8a (by decide) hfa
  have hexn : scrape_single_page envC8 urlC8b = .error () := by
    simp [scrape_single_page, get_text_from_url, envC8, Except.map,
      show skipUrl urlC8b = false from by decide]
  refine ⟨h1, ?_, ?_⟩
  · simpa [pyOrEmpty] using page_failures_never_propagate.2.1 envC8 urlC8a none h1
  · simpa using page_failures_never_propagate.2.2 envC8 [] [] urlC8b hexn

/-- Claim C1 counterexample: a crawl whose single page yields text one
character longer than the configured maximum returns that text uncut, so the
aggregate exceeds `MAX_SCRAPED_TEXT_LENGTH`: `scrape_website` applies no
truncation. -/
theorem scrape_website_no_cap_counterexample :
    ∃ t : List Char, scrape_website envC1 mainUrlC1 = .ok t
      ∧ MAX_SCRAPED_TEXT_LENGTH < t.length := by
  refine ⟨bigTextC1, ?_, ?_⟩
  · have hskip : skipUrl mainUrlC1 = false := by decide
    have hfetch : envC1.fetch mainUrlC1 = .ok docC1 := by simp [envC1]
    have hext : extractAllText docC1 = bigTextC1 := by
      simp [docC1, extractAllText, removeTagsList, badTags, pTag, findAllPList,
        getTextStrip, fragmentsList, intercalate_singleton, bigTextC1,
        pyTrim_replicate_a]
    have hpage : scrape_single_page envC1 mainUrlC1 = .ok bigTextC1 := by
      simp [scrape_single_page, get_text_from_url, hskip, hfetch, hext,
        pyOrEmpty, Except.map]
    have hne : bigTextC1 ≠ [] := by
      intro hcontra
      have hlen := congrArg List.length hcontra
      rw [bigTextC1, List.length_replicate] at hlen
      simp at hlen
    have hsub : get_subpages envC1 mainUrlC1 = .ok (.pySet []) := rfl
    simp [scrape_website, hsub, pySetAdd, setInsert, PyVal.elems, crawlPages,
      hpage, hne, intercalate_singleton, Bind.bind, Except.bind, pure, Except.pure]
  · rw [bigTextC1, List.length_replicate]
    omega

/-- Claim C1 amended: `scrape_website` applies no length cap: whenever
discovery succeeds, it returns exactly the space-join of the nonempty
per-page texts of the discovered pages plus the root, unbounded; the helper
`check_scraped_text_length` does truncate its input to the configured
maximum, but `scrape_website` never invokes it. -/
theorem scrape_website_no_cap_amended (env : Env) (main_url : List Char)
    (hrefs : List (List Char)) (h : env.disc main_url = .resp 200 hrefs) :
    scrape_website env main_url
      = .ok (List.intercalate [' ']
          ((setInsert (buildSubpages main_url hrefs) main_url).filterMap (fun p =>
            match scrape_single_page env p with
            | .error _ => none
            | .ok t => if t = [] then none else some t)))
    ∧ (∀ s : List Char,
        (check_scraped_text_length s).length ≤ MAX_SCRAPED_TEXT_LENGTH) := by
  constructor
  · have hsub : get_subpages env main_url
        = .ok (.pySet (buildSubpages main_url hrefs)) := by
      simp [get_subpages, h]
    simp [scrape_website, hsub, pySetAdd, PyVal.elems, crawlPages_eq_filterMap,
      Bind.bind, Except.bind, pure, Except.pure]
  · intro s
    unfold check_scraped_text_length
    by_cases hlen : s.length > MAX_SCRAPED_TEXT_LENGTH
    · rw [if_pos hlen, List.length_take]; omega
    · rw [if_neg hlen]; omega

/-- Witness for the amended claim C1 at a concrete environment whose
discovery succeeds with no anchors. -/
theorem scrape_website_no_cap_amended_witness :
    scrape_website envC1W ("https://w.example".toList)
      = .ok (List.intercalate [' ']
          ((setInsert (buildSubpages ("https://w.example".toList) [])
              ("https://w.example".toList)).filterMap (fun p =>
            match scrape_single_page envC1W p with
            | .error _ => none
            | .ok t => if t = [] then none else some t))) :=
  (scrape_website_no_cap_amended envC1W ("https://w.example".toList) [] rfl).1

end Scraper
